import Mathlib

set_option maxHeartbeats 1000000

/-!
Verification development for the multicore FreeRTOS blinky firmware
(`example-freertos-blinky-mc.c`).

The boot phase (`secondary_main`, `other_main`, the barrier part of
`prvSetupHardware`) is embedded as a small-step interleaving transition
system over the harts, with sequentially consistent shared memory (the
`fence rw,w` is a no-op in this memory model) and the metal lock taken to
be a correct mutex per its contract.  The FreeRTOS kernel (queue,
scheduler, `vTaskDelayUntil`) is not part of the repository's sources, so
those parts are modelled from the specification and marked as such; the
application task bodies are embedded from the source.
-/

namespace BlinkyMC

/-- Console messages emitted by the program (the exact strings appear in
`msgText`). -/
inductive Msg
  | lockInitFail
  | otherHartInit
  | demoStart
  | blink
  | unexpected
  | stackOverflow
  | noExtCtrl
  | ledWarning
  deriving DecidableEq, Repr

/-- The exact source strings for each message. -/
def msgText : Msg → String
  | .lockInitFail => "Failed to initialize my_lock\r\n"
  | .otherHartInit => "Other Hart Init\r\n"
  | .demoStart => "FreeRTOS Demo Multicore start after other core init OK\r\n"
  | .blink => "Blink\r\n"
  | .unexpected => "Unexpected value received\r\n"
  | .stackOverflow => "ERROR Stack overflow on func: "
  | .noExtCtrl => "No External controller\n"
  | .ledWarning => "At least one of LEDs is null.\n"

/-- Program counter of one hart during boot.  `p…` states belong to the
primary hart (hartid 0) running `secondary_main`'s `hartid == 0` branch and
then `main`/`prvSetupHardware` up to the barrier; `s…` states belong to a
secondary hart running `other_main`. -/
inductive HartPC
  /-- primary at entry, about to call `metal_lock_init` -/
  | pStart
  /-- primary after a failed `metal_lock_init`: wrote the failure message,
  spinning in `for(;;)` -/
  | pFailed
  /-- primary after a successful `metal_lock_init`, before the fence and
  `_start_other = 1` -/
  | pInitOk
  /-- primary inside `main`/`prvSetupHardware`, about to `metal_lock_take` -/
  | pMainStart
  /-- primary holds the lock, about to `checkin_count += 1` -/
  | pHolding
  /-- primary holds the lock, has incremented, about to `metal_lock_give` -/
  | pIncred
  /-- primary busy-waiting on `while(checkin_count != num_harts)` -/
  | pWaiting
  /-- primary past the rendezvous barrier (single-owner hardware setup) -/
  | pPast
  /-- secondary busy-waiting on `while(!_start_other)` -/
  | sWaitFlag
  /-- secondary observed the flag, about to `metal_lock_take` -/
  | sTake
  /-- secondary holds the lock, about to write its message -/
  | sHolding
  /-- secondary holds the lock, wrote its message, about to increment -/
  | sWrote
  /-- secondary holds the lock, has incremented, about to `metal_lock_give` -/
  | sIncred
  /-- secondary parked in the `while(1) wfi` loop -/
  | sParked
  deriving DecidableEq, Repr

/-- Shared boot state: the `_start_other` flag, the `checkin_count`
counter, the lock (initialization status and current owner), the program
counter of every hart and the console output so far. -/
structure BootCfg where
  flag : Bool
  checkin : Nat
  lockInited : Bool
  lockOwner : Option Nat
  pc : Nat → HartPC
  out : List Msg

/-- Initial boot configuration: `_start_other = 0`, `checkin_count = 0`,
lock uninitialized and free, hart 0 at the primary entry, every other hart
at the `other_main` flag poll. -/
def initCfg : BootCfg :=
  { flag := false, checkin := 0, lockInited := false, lockOwner := none
    pc := fun h => if h = 0 then .pStart else .sWaitFlag, out := [] }

/-- One interleaved step of the boot protocol on a machine of `N` harts.
`ok` records whether `metal_lock_init` succeeds.  Each constructor embeds
one statement of the source, executed by one hart. -/
inductive BootStep (ok : Bool) (N : Nat) : BootCfg → BootCfg → Prop
  /-- `metal_lock_init(&my_lock)` returns 0 -/
  | initOk {c : BootCfg} (hok : ok = true) (hpc : c.pc 0 = .pStart) :
      BootStep ok N c
        { c with lockInited := true, pc := Function.update c.pc 0 .pInitOk }
  /-- `metal_lock_init(&my_lock)` returns nonzero: write the failure
  message and enter `for(;;)` -/
  | initFail {c : BootCfg} (hok : ok = false) (hpc : c.pc 0 = .pStart) :
      BootStep ok N c
        { c with out := c.out ++ [.lockInitFail],
                 pc := Function.update c.pc 0 .pFailed }
  /-- `fence rw,w; _start_other = 1` (the fence is a no-op under
  sequential consistency) -/
  | setFlag {c : BootCfg} (hpc : c.pc 0 = .pInitOk) :
      BootStep ok N c
        { c with flag := true, pc := Function.update c.pc 0 .pMainStart }
  /-- primary `metal_lock_take(&my_lock)` in `prvSetupHardware` -/
  | pTakeLock {c : BootCfg} (hpc : c.pc 0 = .pMainStart)
      (hl : c.lockOwner = none) :
      BootStep ok N c
        { c with lockOwner := some 0, pc := Function.update c.pc 0 .pHolding }
  /-- primary `checkin_count += 1` -/
  | pIncrStep {c : BootCfg} (hpc : c.pc 0 = .pHolding) :
      BootStep ok N c
        { c with checkin := c.checkin + 1,
                 pc := Function.update c.pc 0 .pIncred }
  /-- primary `metal_lock_give(&my_lock)` -/
  | pGiveLock {c : BootCfg} (hpc : c.pc 0 = .pIncred) :
      BootStep ok N c
        { c with lockOwner := none, pc := Function.update c.pc 0 .pWaiting }
  /-- primary leaves `while(checkin_count != num_harts)`: enabled exactly
  when the counter equals the hart count -/
  | pPassBarrier {c : BootCfg} (hpc : c.pc 0 = .pWaiting)
      (hcnt : c.checkin = N) :
      BootStep ok N c { c with pc := Function.update c.pc 0 .pPast }
  /-- secondary hart `h` leaves `while(!_start_other)`: enabled exactly
  when the flag is set -/
  | sSeeFlag {c : BootCfg} (h : Nat) (hpos : 0 < h) (hlt : h < N)
      (hpc : c.pc h = .sWaitFlag) (hf : c.flag = true) :
      BootStep ok N c { c with pc := Function.update c.pc h .sTake }
  /-- secondary `metal_lock_take(&my_lock)` -/
  | sTakeLock {c : BootCfg} (h : Nat) (hpos : 0 < h) (hlt : h < N)
      (hpc : c.pc h = .sTake) (hl : c.lockOwner = none) :
      BootStep ok N c
        { c with lockOwner := some h, pc := Function.update c.pc h .sHolding }
  /-- secondary `write(STDOUT_FILENO, "Other Hart Init\r\n", …)` -/
  | sWriteMsg {c : BootCfg} (h : Nat) (hpos : 0 < h) (hlt : h < N)
      (hpc : c.pc h = .sHolding) :
      BootStep ok N c
        { c with out := c.out ++ [.otherHartInit],
                 pc := Function.update c.pc h .sWrote }
  /-- secondary `checkin_count += 1` -/
  | sIncrStep {c : BootCfg} (h : Nat) (hpos : 0 < h) (hlt : h < N)
      (hpc : c.pc h = .sWrote) :
      BootStep ok N c
        { c with checkin := c.checkin + 1,
                 pc := Function.update c.pc h .sIncred }
  /-- secondary `metal_lock_give(&my_lock)`, then park in `while(1) wfi` -/
  | sGiveLock {c : BootCfg} (h : Nat) (hpos : 0 < h) (hlt : h < N)
      (hpc : c.pc h = .sIncred) :
      BootStep ok N c
        { c with lockOwner := none, pc := Function.update c.pc h .sParked }

/-- Configurations reachable from boot. -/
inductive BootReach (ok : Bool) (N : Nat) : BootCfg → Prop
  | init : BootReach ok N initCfg
  | step {c c' : BootCfg} :
      BootReach ok N c → BootStep ok N c c' → BootReach ok N c'

/-- Configurations reachable from a given configuration. -/
inductive BootReachFrom (ok : Bool) (N : Nat) (c : BootCfg) : BootCfg → Prop
  | refl : BootReachFrom ok N c c
  | step {d d' : BootCfg} :
      BootReachFrom ok N c d → BootStep ok N d d' → BootReachFrom ok N c d'

/-- Harts whose `checkin_count += 1` has executed. -/
def incremented : HartPC → Bool
  | .pIncred | .pWaiting | .pPast | .sIncred | .sParked => true
  | _ => false

/-- Harts currently inside the lock-protected critical section. -/
def holding : HartPC → Bool
  | .pHolding | .pIncred | .sHolding | .sWrote | .sIncred => true
  | _ => false

/-- Secondary states at or past the first use of the lock (all of them lie
behind the `while(!_start_other)` poll). -/
def sPastFlag : HartPC → Bool
  | .sTake | .sHolding | .sWrote | .sIncred | .sParked => true
  | _ => false

/-- Primary states from which `metal_lock_init` has already succeeded. -/
def pInited : HartPC → Bool
  | .pInitOk | .pMainStart | .pHolding | .pIncred | .pWaiting | .pPast => true
  | _ => false

/-- Primary states inside `main` (queue creation, task creation and the
scheduler all lie beyond `pMainStart`). -/
def mainPhase : HartPC → Bool
  | .pMainStart | .pHolding | .pIncred | .pWaiting | .pPast => true
  | _ => false

/-- The number of harts of the machine that have executed their
increment. -/
def checkCount (N : Nat) (c : BootCfg) : Nat :=
  ((Finset.range N).filter (fun h => incremented (c.pc h) = true)).card

/-- Updating a hart's pc without changing its `incremented` status keeps
the checkin census unchanged. -/
theorem checkCount_update_eq (N h : Nat) (f : Nat → HartPC) (v : HartPC)
    (hv : incremented v = incremented (f h)) :
    ((Finset.range N).filter
      (fun i => incremented (Function.update f h v i) = true)).card =
    ((Finset.range N).filter (fun i => incremented (f i) = true)).card := by
  congr 1
  apply Finset.filter_congr
  intro i _
  by_cases hih : i = h
  · subst hih; simp [Function.update_apply, hv]
  · simp [Function.update_apply, hih]

/-- Updating a hart `h < N` from a non-incremented state to an incremented
state raises the checkin census by one. -/
theorem checkCount_update_incr (N h : Nat) (f : Nat → HartPC) (v : HartPC)
    (hlt : h < N) (hold : incremented (f h) = false)
    (hv : incremented v = true) :
    ((Finset.range N).filter
      (fun i => incremented (Function.update f h v i) = true)).card =
    ((Finset.range N).filter (fun i => incremented (f i) = true)).card + 1 := by
  have hins : (Finset.range N).filter
      (fun i => incremented (Function.update f h v i) = true) =
      insert h ((Finset.range N).filter (fun i => incremented (f i) = true)) := by
    ext i
    by_cases hih : i = h
    · subst hih
      simp [Finset.mem_filter, Finset.mem_range, Function.update_apply, hv, hlt]
    · simp [Finset.mem_filter, Finset.mem_range, Function.update_apply, hih]
  rw [hins, Finset.card_insert_of_not_mem]
  simp [Finset.mem_filter, hold]

/-- Ordering invariant of the boot protocol: the flag is raised only after
the lock is initialized, secondaries get past their poll only after the
flag is raised, the primary remembers a successful init, and whoever is in
the critical section owns the lock. -/
def BootOrd (c : BootCfg) : Prop :=
  (c.flag = true → c.lockInited = true) ∧
  (∀ h : Nat, sPastFlag (c.pc h) = true → c.flag = true) ∧
  (pInited (c.pc 0) = true → c.lockInited = true) ∧
  (∀ h : Nat, holding (c.pc h) = true → c.lockOwner = some h)

theorem update_pred_of_ne {f : Nat → HartPC} {idx h : Nat} {v : HartPC}
    {P : HartPC → Bool} (hne : h ≠ idx)
    (hh : P (Function.update f idx v h) = true) : P (f h) = true := by
  rwa [Function.update_apply, if_neg hne] at hh

theorem update_pred_elim {f : Nat → HartPC} {idx h : Nat} {v : HartPC}
    {P : HartPC → Bool} (hv : P v = false)
    (hh : P (Function.update f idx v h) = true) :
    P (f h) = true ∧ h ≠ idx := by
  by_cases hne : h = idx
  · subst hne
    rw [Function.update_same, hv] at hh
    cases hh
  · exact ⟨update_pred_of_ne hne hh, hne⟩

theorem bootOrd_init : BootOrd initCfg := by
  refine ⟨by simp [initCfg], ?_, by simp [initCfg, pInited], ?_⟩
  · intro h hh
    by_cases h0 : h = 0 <;> simp [initCfg, h0, sPastFlag] at hh
  · intro h hh
    by_cases h0 : h = 0 <;> simp [initCfg, h0, holding] at hh

theorem bootOrd_step {ok : Bool} {N : Nat} {c c' : BootCfg}
    (hinv : BootOrd c) (hs : BootStep ok N c c') : BootOrd c' := by
  obtain ⟨hfi, hsf, hpi, hown⟩ := hinv
  cases hs with
  | initOk hok hpc =>
      refine ⟨fun _ => rfl, fun h hh => ?_, fun _ => rfl, fun h hh => ?_⟩
      · exact hsf h (update_pred_elim rfl hh).1
      · exact hown h (update_pred_elim rfl hh).1
  | initFail hok hpc =>
      refine ⟨hfi, fun h hh => ?_, fun hp => ?_, fun h hh => ?_⟩
      · exact hsf h (update_pred_elim rfl hh).1
      · simp [Function.update_same, pInited] at hp
      · exact hown h (update_pred_elim rfl hh).1
  | setFlag hpc =>
      have hinited : c.lockInited = true := hpi (by rw [hpc]; rfl)
      refine ⟨fun _ => hinited, fun _ _ => rfl, fun _ => hinited,
        fun h hh => ?_⟩
      exact hown h (update_pred_elim rfl hh).1
  | pTakeLock hpc hl =>
      refine ⟨hfi, fun h hh => ?_, fun _ => hpi (by rw [hpc]; rfl),
        fun h hh => ?_⟩
      · exact hsf h (update_pred_elim rfl hh).1
      · by_cases h0 : h = 0
        · subst h0; rfl
        · have := hown h (update_pred_of_ne h0 hh)
          rw [hl] at this
          cases this
  | pIncrStep hpc =>
      refine ⟨hfi, fun h hh => ?_, fun _ => hpi (by rw [hpc]; rfl),
        fun h hh => ?_⟩
      · exact hsf h (update_pred_elim rfl hh).1
      · by_cases h0 : h = 0
        · subst h0; exact hown 0 (by rw [hpc]; rfl)
        · exact hown h (update_pred_of_ne h0 hh)
  | pGiveLock hpc =>
      refine ⟨hfi, fun h hh => ?_, fun _ => hpi (by rw [hpc]; rfl),
        fun h hh => ?_⟩
      · exact hsf h (update_pred_elim rfl hh).1
      · obtain ⟨hh', h0⟩ := update_pred_elim rfl hh
        have := hown h hh'
        have h0own : c.lockOwner = some 0 := hown 0 (by rw [hpc]; rfl)
        rw [h0own] at this
        exact absurd (Option.some.inj this).symm h0
  | pPassBarrier hpc hcnt =>
      refine ⟨hfi, fun h hh => ?_, fun _ => hpi (by rw [hpc]; rfl),
        fun h hh => ?_⟩
      · exact hsf h (update_pred_elim rfl hh).1
      · exact hown h (update_pred_elim rfl hh).1
  | sSeeFlag hx hpos hlt hpc hf =>
      refine ⟨hfi, fun _ _ => hf,
        fun hp => hpi (update_pred_of_ne (Nat.ne_of_lt hpos) hp),
        fun h hh => ?_⟩
      exact hown h (update_pred_elim rfl hh).1
  | sTakeLock hx hpos hlt hpc hl =>
      refine ⟨hfi, fun h hh => ?_,
        fun hp => hpi (update_pred_of_ne (Nat.ne_of_lt hpos) hp),
        fun h hh => ?_⟩
      · by_cases hne : h = hx
        · exact hsf hx (by rw [hpc]; rfl)
        · exact hsf h (update_pred_of_ne hne hh)
      · by_cases hne : h = hx
        · subst hne; rfl
        · have := hown h (update_pred_of_ne hne hh)
          rw [hl] at this
          cases this
  | sWriteMsg hx hpos hlt hpc =>
      refine ⟨hfi, fun h hh => ?_,
        fun hp => hpi (update_pred_of_ne (Nat.ne_of_lt hpos) hp),
        fun h hh => ?_⟩
      · by_cases hne : h = hx
        · exact hsf hx (by rw [hpc]; rfl)
        · exact hsf h (update_pred_of_ne hne hh)
      · by_cases hne : h = hx
        · subst hne; exact hown h (by rw [hpc]; rfl)
        · exact hown h (update_pred_of_ne hne hh)
  | sIncrStep hx hpos hlt hpc =>
      refine ⟨hfi, fun h hh => ?_,
        fun hp => hpi (update_pred_of_ne (Nat.ne_of_lt hpos) hp),
        fun h hh => ?_⟩
      · by_cases hne : h = hx
        · exact hsf hx (by rw [hpc]; rfl)
        · exact hsf h (update_pred_of_ne hne hh)
      · by_cases hne : h = hx
        · subst hne; exact hown h (by rw [hpc]; rfl)
        · exact hown h (update_pred_of_ne hne hh)
  | sGiveLock hx hpos hlt hpc =>
      refine ⟨hfi, fun h hh => ?_,
        fun hp => hpi (update_pred_of_ne (Nat.ne_of_lt hpos) hp),
        fun h hh => ?_⟩
      · by_cases hne : h = hx
        · exact hsf hx (by rw [hpc]; rfl)
        · exact hsf h (update_pred_of_ne hne hh)
      · obtain ⟨hh', hne⟩ := update_pred_elim rfl hh
        have := hown h hh'
        have hxown : c.lockOwner = some hx := hown hx (by rw [hpc]; rfl)
        rw [hxown] at this
        exact absurd (Option.some.inj this).symm hne

/-- The ordering invariant holds in every reachable boot configuration. -/
theorem bootOrd_reach {ok : Bool} {N : Nat} {c : BootCfg}
    (h : BootReach ok N c) : BootOrd c := by
  induction h with
  | init => exact bootOrd_init
  | step _ hs ih => exact bootOrd_step ih hs

theorem checkCount_le (N : Nat) (c : BootCfg) : checkCount N c ≤ N := by
  calc ((Finset.range N).filter (fun h => incremented (c.pc h) = true)).card
      ≤ (Finset.range N).card := Finset.card_filter_le _ _
    _ = N := Finset.card_range N

/-- When the census is complete, every hart of the machine has
incremented. -/
theorem all_incremented_of_full {N : Nat} {c : BootCfg}
    (hcc : c.checkin = checkCount N c) (hfull : c.checkin = N) :
    ∀ h : Nat, h < N → incremented (c.pc h) = true := by
  have hcard :
      ((Finset.range N).filter (fun h => incremented (c.pc h) = true)).card
        = N := by
    rw [← checkCount, ← hcc, hfull]
  have heq :
      (Finset.range N).filter (fun h => incremented (c.pc h) = true)
        = Finset.range N := by
    apply Finset.eq_of_subset_of_card_le (Finset.filter_subset _ _)
    rw [Finset.card_range, hcard]
  intro h hh
  have : h ∈ (Finset.range N).filter (fun h => incremented (c.pc h) = true) := by
    rw [heq]
    exact Finset.mem_range.mpr hh
  exact (Finset.mem_filter.mp this).2

/-- Counting invariant: the counter equals the number of harts that have
incremented, and once the primary is past the barrier the counter equals
the hart count. -/
def BootCnt (N : Nat) (c : BootCfg) : Prop :=
  c.checkin = checkCount N c ∧ (c.pc 0 = .pPast → c.checkin = N)

theorem bootCnt_init (N : Nat) : BootCnt N initCfg := by
  constructor
  · have hemp : (Finset.range N).filter
        (fun h => incremented (initCfg.pc h) = true) = ∅ := by
      apply Finset.filter_eq_empty_iff.mpr
      intro i _
      by_cases h0 : i = 0 <;> simp [initCfg, h0, incremented]
    show initCfg.checkin = ((Finset.range N).filter
      (fun h => incremented (initCfg.pc h) = true)).card
    rw [hemp]
    rfl
  · intro hp
    simp [initCfg] at hp

theorem bootCnt_step {ok : Bool} {N : Nat} {c c' : BootCfg} (hN : 1 ≤ N)
    (hcnt : BootCnt N c) (hs : BootStep ok N c c') : BootCnt N c' := by
  obtain ⟨hcc, hpast⟩ := hcnt
  cases hs with
  | initOk hok hpc =>
      constructor
      · rw [checkCount, checkCount_update_eq N 0 c.pc _ (by rw [hpc]; rfl)]
        exact hcc
      · intro hp
        simp [Function.update_same] at hp
  | initFail hok hpc =>
      constructor
      · rw [checkCount, checkCount_update_eq N 0 c.pc _ (by rw [hpc]; rfl)]
        exact hcc
      · intro hp
        simp [Function.update_same] at hp
  | setFlag hpc =>
      constructor
      · rw [checkCount, checkCount_update_eq N 0 c.pc _ (by rw [hpc]; rfl)]
        exact hcc
      · intro hp
        simp [Function.update_same] at hp
  | pTakeLock hpc hl =>
      constructor
      · rw [checkCount, checkCount_update_eq N 0 c.pc _ (by rw [hpc]; rfl)]
        exact hcc
      · intro hp
        simp [Function.update_same] at hp
  | pIncrStep hpc =>
      constructor
      · rw [checkCount,
          checkCount_update_incr N 0 c.pc HartPC.pIncred hN
            (by rw [hpc]; rfl) rfl, hcc]
        rfl
      · intro hp
        simp [Function.update_same] at hp
  | pGiveLock hpc =>
      constructor
      · rw [checkCount, checkCount_update_eq N 0 c.pc _ (by rw [hpc]; rfl)]
        exact hcc
      · intro hp
        simp [Function.update_same] at hp
  | pPassBarrier hpc hfull =>
      constructor
      · rw [checkCount, checkCount_update_eq N 0 c.pc _ (by rw [hpc]; rfl)]
        exact hcc
      · intro _
        exact hfull
  | sSeeFlag hx hpos hlt hpc hf =>
      constructor
      · rw [checkCount, checkCount_update_eq N hx c.pc _ (by rw [hpc]; rfl)]
        exact hcc
      · intro hp
        have hp' : Function.update c.pc hx HartPC.sTake 0 = .pPast := hp
        rw [Function.update_noteq (Nat.ne_of_lt hpos)] at hp'
        exact hpast hp'
  | sTakeLock hx hpos hlt hpc hl =>
      constructor
      · rw [checkCount, checkCount_update_eq N hx c.pc _ (by rw [hpc]; rfl)]
        exact hcc
      · intro hp
        have hp' : Function.update c.pc hx HartPC.sHolding 0 = .pPast := hp
        rw [Function.update_noteq (Nat.ne_of_lt hpos)] at hp'
        exact hpast hp'
  | sWriteMsg hx hpos hlt hpc =>
      constructor
      · rw [checkCount, checkCount_update_eq N hx c.pc _ (by rw [hpc]; rfl)]
        exact hcc
      · intro hp
        have hp' : Function.update c.pc hx HartPC.sWrote 0 = .pPast := hp
        rw [Function.update_noteq (Nat.ne_of_lt hpos)] at hp'
        exact hpast hp'
  | sIncrStep hx hpos hlt hpc =>
      constructor
      · rw [checkCount,
          checkCount_update_incr N hx c.pc HartPC.sIncred hlt
            (by rw [hpc]; rfl) rfl, hcc]
        rfl
      · intro hp
        have hp' : Function.update c.pc hx HartPC.sIncred 0 = .pPast := hp
        rw [Function.update_noteq (Nat.ne_of_lt hpos)] at hp'
        have hfull := hpast hp'
        have := all_incremented_of_full hcc hfull hx hlt
        rw [hpc] at this
        simp [incremented] at this
  | sGiveLock hx hpos hlt hpc =>
      constructor
      · rw [checkCount, checkCount_update_eq N hx c.pc _ (by rw [hpc]; rfl)]
        exact hcc
      · intro hp
        have hp' : Function.update c.pc hx HartPC.sParked 0 = .pPast := hp
        rw [Function.update_noteq (Nat.ne_of_lt hpos)] at hp'
        exact hpast hp'

/-- The counting invariant holds in every reachable boot configuration. -/
theorem bootCnt_reach {ok : Bool} {N : Nat} {c : BootCfg} (hN : 1 ≤ N)
    (h : BootReach ok N c) : BootCnt N c := by
  induction h with
  | init => exact bootCnt_init N
  | step _ hs ih => exact bootCnt_step hN ih hs

theorem bootReach_of_from {ok : Bool} {N : Nat} {c d : BootCfg}
    (hr : BootReach ok N c) (hrf : BootReachFrom ok N c d) :
    BootReach ok N d := by
  induction hrf with
  | refl => exact hr
  | step _ hs ih => exact BootReach.step ih hs

/-- Once the counter has reached the hart count it never changes again. -/
theorem checkin_frozen {ok : Bool} {N : Nat} {c c' : BootCfg} (hN : 1 ≤ N)
    (hr : BootReach ok N c) (hfull : c.checkin = N)
    (hrf : BootReachFrom ok N c c') : c'.checkin = N := by
  induction hrf with
  | refl => exact hfull
  | step hd hs ih =>
      have hreachd := bootReach_of_from hr hd
      have hcntd := bootCnt_reach hN hreachd
      cases hs with
      | initOk hok hpc => exact ih
      | initFail hok hpc => exact ih
      | setFlag hpc => exact ih
      | pTakeLock hpc hl => exact ih
      | pIncrStep hpc =>
          have := all_incremented_of_full hcntd.1 ih 0 hN
          rw [hpc] at this
          simp [incremented] at this
      | pGiveLock hpc => exact ih
      | pPassBarrier hpc hfull2 => exact ih
      | sSeeFlag hx hpos hlt hpc hf => exact ih
      | sTakeLock hx hpos hlt hpc hl => exact ih
      | sWriteMsg hx hpos hlt hpc => exact ih
      | sIncrStep hx hpos hlt hpc =>
          have := all_incremented_of_full hcntd.1 ih hx hlt
          rw [hpc] at this
          simp [incremented] at this
      | sGiveLock hx hpos hlt hpc => exact ih

/-- A step changes the counter only when the stepping hart holds the
lock inside its critical section. -/
theorem checkin_change_under_lock {ok : Bool} {N : Nat} {c c' : BootCfg}
    (hord : BootOrd c) (hs : BootStep ok N c c')
    (hch : c'.checkin ≠ c.checkin) :
    ∃ h : Nat, c.lockOwner = some h ∧ holding (c.pc h) = true := by
  cases hs with
  | initOk hok hpc => exact absurd rfl hch
  | initFail hok hpc => exact absurd rfl hch
  | setFlag hpc => exact absurd rfl hch
  | pTakeLock hpc hl => exact absurd rfl hch
  | pIncrStep hpc =>
      exact ⟨0, hord.2.2.2 0 (by rw [hpc]; rfl), by rw [hpc]; rfl⟩
  | pGiveLock hpc => exact absurd rfl hch
  | pPassBarrier hpc hfull => exact absurd rfl hch
  | sSeeFlag hx hpos hlt hpc hf => exact absurd rfl hch
  | sTakeLock hx hpos hlt hpc hl => exact absurd rfl hch
  | sWriteMsg hx hpos hlt hpc => exact absurd rfl hch
  | sIncrStep hx hpos hlt hpc =>
      exact ⟨hx, hord.2.2.2 hx (by rw [hpc]; rfl), by rw [hpc]; rfl⟩
  | sGiveLock hx hpos hlt hpc => exact absurd rfl hch

/-- A step takes the primary from the barrier spin to the past-barrier
state only when the counter equals the hart count. -/
theorem barrier_gate {ok : Bool} {N : Nat} {c c' : BootCfg}
    (hs : BootStep ok N c c') (hw : c.pc 0 = .pWaiting)
    (hp : c'.pc 0 = .pPast) : c.checkin = N := by
  cases hs with
  | initOk hok hpc => rw [hw] at hpc; cases hpc
  | initFail hok hpc => rw [hw] at hpc; cases hpc
  | setFlag hpc => rw [hw] at hpc; cases hpc
  | pTakeLock hpc hl => rw [hw] at hpc; cases hpc
  | pIncrStep hpc => rw [hw] at hpc; cases hpc
  | pGiveLock hpc => rw [hw] at hpc; cases hpc
  | pPassBarrier hpc hfull => exact hfull
  | sSeeFlag hx hpos hlt hpc hf =>
      have hp' : Function.update c.pc hx HartPC.sTake 0 = .pPast := hp
      rw [Function.update_noteq (Nat.ne_of_lt hpos), hw] at hp'
      cases hp'
  | sTakeLock hx hpos hlt hpc hl =>
      have hp' : Function.update c.pc hx HartPC.sHolding 0 = .pPast := hp
      rw [Function.update_noteq (Nat.ne_of_lt hpos), hw] at hp'
      cases hp'
  | sWriteMsg hx hpos hlt hpc =>
      have hp' : Function.update c.pc hx HartPC.sWrote 0 = .pPast := hp
      rw [Function.update_noteq (Nat.ne_of_lt hpos), hw] at hp'
      cases hp'
  | sIncrStep hx hpos hlt hpc =>
      have hp' : Function.update c.pc hx HartPC.sIncred 0 = .pPast := hp
      rw [Function.update_noteq (Nat.ne_of_lt hpos), hw] at hp'
      cases hp'
  | sGiveLock hx hpos hlt hpc =>
      have hp' : Function.update c.pc hx HartPC.sParked 0 = .pPast := hp
      rw [Function.update_noteq (Nat.ne_of_lt hpos), hw] at hp'
      cases hp'

/-- Invariant of the failed-lock-init run: the primary never leaves the
entry/failure states, the flag stays down, the counter stays zero, every
secondary stays parked on the flag poll, and the only possible output is
the single failure diagnostic. -/
def BootFailInv (c : BootCfg) : Prop :=
  (c.pc 0 = .pStart ∨ c.pc 0 = .pFailed) ∧
  c.flag = false ∧
  c.lockInited = false ∧
  c.checkin = 0 ∧
  (∀ h : Nat, 0 < h → c.pc h = .sWaitFlag) ∧
  (c.pc 0 = .pStart → c.out = []) ∧
  (c.pc 0 = .pFailed → c.out = [.lockInitFail])

theorem bootFailInv_init : BootFailInv initCfg := by
  refine ⟨Or.inl rfl, rfl, rfl, rfl, ?_, fun _ => rfl, fun hp => ?_⟩
  · intro h h0
    simp [initCfg, Nat.pos_iff_ne_zero.mp h0]
  · simp [initCfg] at hp

theorem bootFailInv_step {N : Nat} {c c' : BootCfg}
    (hinv : BootFailInv c) (hs : BootStep false N c c') : BootFailInv c' := by
  obtain ⟨hpc0, hflag, hinit, hcnt, hsec, houtS, houtF⟩ := hinv
  cases hs with
  | initOk hok hpc => cases hok
  | initFail hok hpc =>
      refine ⟨Or.inr rfl, hflag, hinit, hcnt, fun h h0 => ?_,
        fun hp => ?_, fun _ => ?_⟩
      · show Function.update c.pc 0 HartPC.pFailed h = HartPC.sWaitFlag
        rw [Function.update_noteq (Nat.pos_iff_ne_zero.mp h0)]
        exact hsec h h0
      · have hp' : Function.update c.pc 0 HartPC.pFailed 0 = HartPC.pStart := hp
        rw [Function.update_same] at hp'
        cases hp'
      · show c.out ++ [Msg.lockInitFail] = [Msg.lockInitFail]
        rw [houtS hpc]
        rfl
  | setFlag hpc =>
      rcases hpc0 with h | h <;> (rw [h] at hpc; cases hpc)
  | pTakeLock hpc hl =>
      rcases hpc0 with h | h <;> (rw [h] at hpc; cases hpc)
  | pIncrStep hpc =>
      rcases hpc0 with h | h <;> (rw [h] at hpc; cases hpc)
  | pGiveLock hpc =>
      rcases hpc0 with h | h <;> (rw [h] at hpc; cases hpc)
  | pPassBarrier hpc hfull =>
      rcases hpc0 with h | h <;> (rw [h] at hpc; cases hpc)
  | sSeeFlag hx hpos hlt hpc hf =>
      rw [hflag] at hf
      cases hf
  | sTakeLock hx hpos hlt hpc hl =>
      rw [hsec hx hpos] at hpc
      cases hpc
  | sWriteMsg hx hpos hlt hpc =>
      rw [hsec hx hpos] at hpc
      cases hpc
  | sIncrStep hx hpos hlt hpc =>
      rw [hsec hx hpos] at hpc
      cases hpc
  | sGiveLock hx hpos hlt hpc =>
      rw [hsec hx hpos] at hpc
      cases hpc

/-- The failure invariant holds in every configuration reachable when the
lock fails to initialize. -/
theorem bootFailInv_reach {N : Nat} {c : BootCfg}
    (h : BootReach false N c) : BootFailInv c := by
  induction h with
  | init => exact bootFailInv_init
  | step _ hs ih => exact bootFailInv_step ih hs

/-- Concrete two-hart run, step 1: the primary initializes the lock. -/
def t1 : BootCfg :=
  { initCfg with
      lockInited := true
      pc := Function.update initCfg.pc 0 .pInitOk }

/-- Step 2: the primary fences and raises `_start_other`. -/
def t2 : BootCfg :=
  { t1 with flag := true, pc := Function.update t1.pc 0 .pMainStart }

/-- Step 3: hart 1 observes the flag. -/
def t3 : BootCfg := { t2 with pc := Function.update t2.pc 1 .sTake }

/-- Step 4: hart 1 takes the lock. -/
def t4 : BootCfg :=
  { t3 with lockOwner := some 1, pc := Function.update t3.pc 1 .sHolding }

/-- Step 5: hart 1 writes its message. -/
def t5 : BootCfg :=
  { t4 with
      out := t4.out ++ [Msg.otherHartInit]
      pc := Function.update t4.pc 1 .sWrote }

/-- Step 6: hart 1 increments the counter (now 1). -/
def t6 : BootCfg :=
  { t5 with
      checkin := t5.checkin + 1
      pc := Function.update t5.pc 1 .sIncred }

/-- Step 7: hart 1 releases the lock and parks, with the counter still at
1 < 2. -/
def t7 : BootCfg :=
  { t6 with lockOwner := none, pc := Function.update t6.pc 1 .sParked }

/-- Step 8: the primary takes the lock. -/
def t8 : BootCfg :=
  { t7 with lockOwner := some 0, pc := Function.update t7.pc 0 .pHolding }

/-- Step 9: the primary increments the counter (now 2). -/
def t9 : BootCfg :=
  { t8 with
      checkin := t8.checkin + 1
      pc := Function.update t8.pc 0 .pIncred }

/-- Step 10: the primary releases the lock and spins on the barrier. -/
def t10 : BootCfg :=
  { t9 with lockOwner := none, pc := Function.update t9.pc 0 .pWaiting }

/-- Step 11: the counter equals 2, so the primary passes the barrier. -/
def t11 : BootCfg := { t10 with pc := Function.update t10.pc 0 .pPast }

theorem t1_reach : BootReach true 2 t1 :=
  BootReach.step BootReach.init (BootStep.initOk rfl rfl)

theorem t2_reach : BootReach true 2 t2 :=
  BootReach.step t1_reach (BootStep.setFlag rfl)

theorem t3_reach : BootReach true 2 t3 :=
  BootReach.step t2_reach
    (BootStep.sSeeFlag 1 (by decide) (by decide) rfl rfl)

theorem t4_reach : BootReach true 2 t4 :=
  BootReach.step t3_reach
    (BootStep.sTakeLock 1 (by decide) (by decide) rfl rfl)

theorem t5_reach : BootReach true 2 t5 :=
  BootReach.step t4_reach
    (BootStep.sWriteMsg 1 (by decide) (by decide) rfl)

theorem t6_reach : BootReach true 2 t6 :=
  BootReach.step t5_reach
    (BootStep.sIncrStep 1 (by decide) (by decide) rfl)

theorem t7_reach : BootReach true 2 t7 :=
  BootReach.step t6_reach
    (BootStep.sGiveLock 1 (by decide) (by decide) rfl)

theorem t8_reach : BootReach true 2 t8 :=
  BootReach.step t7_reach (BootStep.pTakeLock rfl rfl)

theorem t9_reach : BootReach true 2 t9 :=
  BootReach.step t8_reach (BootStep.pIncrStep rfl)

theorem t10_reach : BootReach true 2 t10 :=
  BootReach.step t9_reach (BootStep.pGiveLock rfl)

theorem t11_reach : BootReach true 2 t11 :=
  BootReach.step t10_reach (BootStep.pPassBarrier rfl rfl)

/-- The configuration reached when `metal_lock_init` fails on a two-hart
machine. -/
def failCfg : BootCfg :=
  { initCfg with
      out := initCfg.out ++ [Msg.lockInitFail]
      pc := Function.update initCfg.pc 0 .pFailed }

theorem failCfg_reach : BootReach false 2 failCfg :=
  BootReach.step BootReach.init (BootStep.initFail rfl rfl)

/-- C1: the claim that every core — secondaries included — busy-waits at
the barrier and that no core proceeds to parking while the counter is
below N is false on the code: on a two-hart machine there is a reachable
configuration in which hart 1 has already parked (`while(1) wfi`) while
`checkin_count` is 1 < 2, because `other_main` parks right after its
increment without ever reading the counter. -/
theorem c1_counterexample :
    BootReach true 2 t7 ∧ t7.pc 1 = HartPC.sParked ∧
      t7.checkin = 1 ∧ t7.checkin < 2 :=
  ⟨t7_reach, rfl, rfl, by decide⟩

/-- C1 (amended): only the primary core busy-waits on the Checkin
Counter.  In every reachable configuration the primary is past the
barrier only if the counter equals the hart count, and the step that
takes the primary from the barrier spin to the past-barrier state is
enabled only when the counter equals exactly N. -/
theorem c1_barrier_amended (N : Nat) (c c' : BootCfg) (hN : 1 ≤ N)
    (hr : BootReach true N c) (hs : BootStep true N c c') :
    (c'.pc 0 = HartPC.pPast → c'.checkin = N) ∧
    (c.pc 0 = HartPC.pWaiting → c'.pc 0 = HartPC.pPast → c.checkin = N) :=
  ⟨(bootCnt_step hN (bootCnt_reach hN hr) hs).2,
   fun hw hp => barrier_gate hs hw hp⟩

theorem c1_barrier_amended_witness :
    1 ≤ 2 ∧
    ((t11.pc 0 = HartPC.pPast → t11.checkin = 2) ∧
     (t10.pc 0 = HartPC.pWaiting → t11.pc 0 = HartPC.pPast →
       t10.checkin = 2)) :=
  ⟨by decide,
   c1_barrier_amended 2 t10 t11 (by decide) t10_reach
     (BootStep.pPassBarrier rfl rfl)⟩

/-- C4: in every reachable boot configuration the flag implies that the
lock is initialized (so no core observes `_start_other` set before
`metal_lock_init` completed), a secondary is at or past its first use of
the lock only if the flag is set, and hence any secondary using the lock
sees an initialized lock. -/
theorem c4_flag_ordering (ok : Bool) (N : Nat) (c : BootCfg)
    (hr : BootReach ok N c) :
    (c.flag = true → c.lockInited = true) ∧
    (∀ h : Nat, sPastFlag (c.pc h) = true → c.flag = true) ∧
    (∀ h : Nat, sPastFlag (c.pc h) = true → c.lockInited = true) := by
  have ord := bootOrd_reach hr
  exact ⟨ord.1, ord.2.1, fun h hh => ord.1 (ord.2.1 h hh)⟩

theorem c4_flag_ordering_witness :
    (t4.flag = true → t4.lockInited = true) ∧
    (∀ h : Nat, sPastFlag (t4.pc h) = true → t4.flag = true) ∧
    (∀ h : Nat, sPastFlag (t4.pc h) = true → t4.lockInited = true) :=
  c4_flag_ordering true 2 t4 t4_reach

/-- C5: in every reachable configuration the counter equals the number of
harts that have performed their single increment (so each core
contributes exactly once) and never exceeds the hart count; any step that
changes the counter is taken by a hart that holds the lock inside its
critical section; and once the counter has reached the hart count it
never changes again. -/
theorem c5_checkin_invariant (ok : Bool) (N : Nat) (hN : 1 ≤ N) :
    (∀ c : BootCfg, BootReach ok N c →
      c.checkin = checkCount N c ∧ c.checkin ≤ N) ∧
    (∀ c c' : BootCfg, BootReach ok N c → BootStep ok N c c' →
      c'.checkin ≠ c.checkin →
      ∃ h : Nat, c.lockOwner = some h ∧ holding (c.pc h) = true) ∧
    (∀ c c' : BootCfg, BootReach ok N c → c.checkin = N →
      BootReachFrom ok N c c' → c'.checkin = N) := by
  refine ⟨fun c hr => ?_, fun c c' hr hs hch => ?_, fun c c' hr hfull hrf => ?_⟩
  · have hcnt := bootCnt_reach hN hr
    exact ⟨hcnt.1, hcnt.1 ▸ checkCount_le N c⟩
  · exact checkin_change_under_lock (bootOrd_reach hr) hs hch
  · exact checkin_frozen hN hr hfull hrf

theorem c5_checkin_invariant_witness :
    (t6.checkin = checkCount 2 t6 ∧ t6.checkin ≤ 2) ∧
    (∃ h : Nat, t5.lockOwner = some h ∧ holding (t5.pc h) = true) ∧
    t11.checkin = 2 :=
  ⟨(c5_checkin_invariant true 2 (by decide)).1 t6 t6_reach,
   (c5_checkin_invariant true 2 (by decide)).2.1 t5 t6 t5_reach
     (BootStep.sIncrStep 1 (by decide) (by decide) rfl) (by decide),
   (c5_checkin_invariant true 2 (by decide)).2.2 t11 t11 t11_reach rfl
     BootReachFrom.refl⟩

/-- C6: when `metal_lock_init` fails, every reachable configuration has
the primary outside the `main` phase (so the queue is never created, no
task is ever created and the scheduler never starts), the flag down, the
counter at zero, every secondary still spinning on the flag poll, and the
primary either still at entry (nothing written) or halted in `for(;;)`
having written exactly the fixed diagnostic message. -/
theorem c6_lockinit_failure_halts (N : Nat) (c : BootCfg)
    (hr : BootReach false N c) :
    mainPhase (c.pc 0) = false ∧ c.flag = false ∧ c.checkin = 0 ∧
    (∀ h : Nat, 0 < h → c.pc h = HartPC.sWaitFlag) ∧
    ((c.pc 0 = HartPC.pStart ∧ c.out = []) ∨
     (c.pc 0 = HartPC.pFailed ∧ c.out = [Msg.lockInitFail])) := by
  obtain ⟨hpc0, hflag, hinit, hcnt, hsec, houtS, houtF⟩ := bootFailInv_reach hr
  refine ⟨?_, hflag, hcnt, hsec, ?_⟩
  · rcases hpc0 with h | h <;> rw [h] <;> rfl
  · rcases hpc0 with h | h
    · exact Or.inl ⟨h, houtS h⟩
    · exact Or.inr ⟨h, houtF h⟩

theorem c6_lockinit_failure_halts_witness :
    mainPhase (failCfg.pc 0) = false ∧ failCfg.flag = false ∧
    failCfg.checkin = 0 ∧
    (∀ h : Nat, 0 < h → failCfg.pc h = HartPC.sWaitFlag) ∧
    ((failCfg.pc 0 = HartPC.pStart ∧ failCfg.out = []) ∨
     (failCfg.pc 0 = HartPC.pFailed ∧ failCfg.out = [Msg.lockInitFail])) :=
  c6_lockinit_failure_halts 2 failCfg failCfg_reach

/-- Priority of the receiving (consumer) task, `tskIDLE_PRIORITY + 2`
in the source. -/
def mainQUEUE_RECEIVE_TASK_PRIORITY (idle : Nat) : Nat := idle + 2

/-- Priority of the sending (producer) task, `tskIDLE_PRIORITY + 1`
in the source. -/
def mainQUEUE_SEND_TASK_PRIORITY (idle : Nat) : Nat := idle + 1

/-- Modelled from the spec: `tskIDLE_PRIORITY` lives in the FreeRTOS
kernel (not part of this repository) and is the lowest priority, 0. -/
def tskIDLE_PRIORITY : Nat := 0

/-- The queue length passed to `xQueueCreate` in the source: 1 element. -/
def mainQUEUE_LENGTH : Nat := 1

/-- The item size passed to `xQueueCreate`: `sizeof(uint32_t)` bytes. -/
def queueItemSize : Nat := 4

/-- Producer task state: asleep until its next wake tick, at its
zero-timeout send, or halted in the assertion handler after a failed
send. -/
inductive ProdSt
  | delaying
  | sending
  | fatal
  deriving DecidableEq, Repr

/-- Consumer task state: blocked on its infinite-timeout receive, or
woken by a send with data available. -/
inductive ConsSt
  | blockedRecv
  | readyRun
  deriving DecidableEq, Repr

/-- Modelled from the spec: joint state of the single-slot queue
(occupancy) and the two application tasks under the fixed-priority
preemptive scheduler.  The FreeRTOS queue and scheduler are not part of
this repository's sources. -/
structure SchedCfg where
  occ : Nat
  prod : ProdSt
  cons : ConsSt
  deriving DecidableEq, Repr

/-- At scheduler start the queue is empty, the producer is at its first
delay and the consumer blocks on the empty queue. -/
def schedInit : SchedCfg :=
  { occ := 0, prod := .delaying, cons := .blockedRecv }

/-- Modelled from the spec: the scheduler always runs the
highest-priority ready task, so the producer (priority `pp`) can execute
only while the consumer (priority `cp`) is blocked — unless the
configured priorities do not place the consumer strictly higher. -/
def prodMayRun (cp pp : Nat) (c : SchedCfg) : Prop :=
  c.cons = .blockedRecv ∨ cp ≤ pp

/-- Modelled from the spec: one scheduler-level step of the
producer/consumer system.  `xQueueSend(xQueue, &v, 0)` stores into a free
slot and wakes the blocked receiver, or returns failure immediately when
the queue is full (zero timeout), which the producer turns into
`configASSERT` — the `fatal` state.  `xQueueReceive(xQueue, &v,
portMAX_DELAY)` dequeues when data is present and blocks otherwise. -/
inductive SchedStep (cp pp : Nat) : SchedCfg → SchedCfg → Prop
  /-- the producer reaches its wake tick and runs up to the send -/
  | wake {c : SchedCfg} (hr : prodMayRun cp pp c) (hp : c.prod = .delaying) :
      SchedStep cp pp c { c with prod := .sending }
  /-- the zero-timeout send finds a free slot: store and wake the
  receiver, then return to the delay loop -/
  | sendOk {c : SchedCfg} (hr : prodMayRun cp pp c) (hp : c.prod = .sending)
      (hq : c.occ < mainQUEUE_LENGTH) :
      SchedStep cp pp c
        { c with occ := c.occ + 1, prod := .delaying, cons := .readyRun }
  /-- the zero-timeout send finds the queue full: immediate failure,
  `configASSERT(xReturned == pdPASS)` fires -/
  | sendFail {c : SchedCfg} (hr : prodMayRun cp pp c) (hp : c.prod = .sending)
      (hq : mainQUEUE_LENGTH ≤ c.occ) :
      SchedStep cp pp c { c with prod := .fatal }
  /-- the woken consumer preempts, dequeues, processes the value, and
  loops to its next receive (blocking if the queue is now empty) -/
  | recvStep {c : SchedCfg} (hc : c.cons = .readyRun) (hq : 1 ≤ c.occ) :
      SchedStep cp pp c
        { c with occ := c.occ - 1,
                 cons := if c.occ - 1 = 0 then .blockedRecv else .readyRun }
  /-- a consumer finding the queue empty blocks on the infinite-timeout
  receive -/
  | recvBlock {c : SchedCfg} (hc : c.cons = .readyRun) (hq : c.occ = 0) :
      SchedStep cp pp c { c with cons := .blockedRecv }

/-- Scheduler configurations reachable from start. -/
inductive SchedReach (cp pp : Nat) : SchedCfg → Prop
  | init : SchedReach cp pp schedInit
  | step {c c' : SchedCfg} :
      SchedReach cp pp c → SchedStep cp pp c c' → SchedReach cp pp c'

/-- Invariant of the producer/consumer system under consumer-over-
producer priority: at most one element in the queue, the slot is free and
the consumer blocked whenever the producer is at its send, a woken
consumer always has exactly one element waiting, and the producer never
reaches the assertion state. -/
def SchedInv (c : SchedCfg) : Prop :=
  c.occ ≤ mainQUEUE_LENGTH ∧
  (c.prod = .sending → c.occ = 0 ∧ c.cons = .blockedRecv) ∧
  (c.cons = .readyRun → c.occ = 1) ∧
  (c.cons = .blockedRecv → c.occ = 0) ∧
  c.prod ≠ .fatal

theorem schedInv_init : SchedInv schedInit := by
  refine ⟨by decide, ?_, ?_, fun _ => rfl, by decide⟩
  · intro h
    cases h
  · intro h
    cases h

theorem schedInv_step {cp pp : Nat} {c c' : SchedCfg} (hcp : pp < cp)
    (hinv : SchedInv c) (hs : SchedStep cp pp c c') : SchedInv c' := by
  obtain ⟨hocc, hsend, hready, hblocked, hfatal⟩ := hinv
  cases hs with
  | wake hr hp =>
      have hcons : c.cons = .blockedRecv :=
        hr.resolve_right (fun hle => absurd hcp (Nat.not_lt.mpr hle))
      have h0 : c.occ = 0 := hblocked hcons
      refine ⟨hocc, fun _ => ⟨h0, hcons⟩, ?_, fun _ => h0, ?_⟩
      · intro hcr
        rw [hcons] at hcr
        cases hcr
      · intro h
        cases h
  | sendOk hr hp hq =>
      have h0 : c.occ = 0 := (hsend hp).1
      refine ⟨?_, ?_, fun _ => ?_, ?_, ?_⟩
      · show c.occ + 1 ≤ mainQUEUE_LENGTH
        rw [h0]
        decide
      · intro h
        cases h
      · show c.occ + 1 = 1
        rw [h0]
      · intro h
        cases h
      · intro h
        cases h
  | sendFail hr hp hq =>
      exfalso
      rw [(hsend hp).1] at hq
      exact absurd hq (by decide)
  | recvStep hc hq =>
      have h1 : c.occ = 1 := hready hc
      have h0 : c.occ - 1 = 0 := by rw [h1]
      refine ⟨?_, ?_, ?_, fun _ => h0, hfatal⟩
      · show c.occ - 1 ≤ mainQUEUE_LENGTH
        rw [h0]
        decide
      · intro hp
        exfalso
        have h2 := (hsend hp).2
        rw [hc] at h2
        cases h2
      · intro hcr
        show c.occ - 1 = 1
        rw [if_pos h0] at hcr
        cases hcr
  | recvBlock hc hq =>
      exfalso
      have h1 := hready hc
      rw [hq] at h1
      cases h1

/-- The scheduler invariant holds in every reachable configuration when
the consumer's priority strictly exceeds the producer's. -/
theorem schedInv_reach {cp pp : Nat} {c : SchedCfg} (hcp : pp < cp)
    (hr : SchedReach cp pp c) : SchedInv c := by
  induction hr with
  | init => exact schedInv_init
  | step _ hs ih => exact schedInv_step hcp ih hs

/-- Reachable configuration after the producer wakes. -/
def q1 : SchedCfg := { schedInit with prod := .sending }

/-- Reachable configuration after the producer's send deposits one
element and wakes the consumer. -/
def q2 : SchedCfg :=
  { q1 with occ := q1.occ + 1, prod := .delaying, cons := .readyRun }

theorem q1_reach :
    SchedReach (mainQUEUE_RECEIVE_TASK_PRIORITY tskIDLE_PRIORITY)
      (mainQUEUE_SEND_TASK_PRIORITY tskIDLE_PRIORITY) q1 :=
  SchedReach.step SchedReach.init (SchedStep.wake (Or.inl rfl) rfl)

theorem q2_reach :
    SchedReach (mainQUEUE_RECEIVE_TASK_PRIORITY tskIDLE_PRIORITY)
      (mainQUEUE_SEND_TASK_PRIORITY tskIDLE_PRIORITY) q2 :=
  SchedReach.step q1_reach (SchedStep.sendOk (Or.inl rfl) rfl (by decide))

/-- C2: while the consumer's priority strictly exceeds the producer's,
every reachable configuration has queue occupancy 0 or 1 — never above
the capacity `mainQUEUE_LENGTH` = 1 — and the producer never reaches the
failed-send state, i.e. the zero-timeout send never returns failure. -/
theorem c2_queue_invariant (cp pp : Nat) (c : SchedCfg) (hcp : pp < cp)
    (hr : SchedReach cp pp c) :
    (c.occ = 0 ∨ c.occ = 1) ∧ c.occ ≤ mainQUEUE_LENGTH ∧
      c.prod ≠ ProdSt.fatal := by
  have hinv := schedInv_reach hcp hr
  have h1 : c.occ ≤ 1 := hinv.1
  exact ⟨by omega, hinv.1, hinv.2.2.2.2⟩

theorem c2_queue_invariant_witness :
    mainQUEUE_SEND_TASK_PRIORITY tskIDLE_PRIORITY <
      mainQUEUE_RECEIVE_TASK_PRIORITY tskIDLE_PRIORITY ∧
    ((q2.occ = 0 ∨ q2.occ = 1) ∧ q2.occ ≤ mainQUEUE_LENGTH ∧
      q2.prod ≠ ProdSt.fatal) :=
  ⟨by decide,
   c2_queue_invariant (mainQUEUE_RECEIVE_TASK_PRIORITY tskIDLE_PRIORITY)
     (mainQUEUE_SEND_TASK_PRIORITY tskIDLE_PRIORITY) q2 (by decide) q2_reach⟩

/-- Modelled from the spec: `vTaskDelayUntil` (FreeRTOS kernel, not part
of this repository) advances the previous-wake reference by the period —
`*pxPreviousWakeTime += xTimeIncrement`, not `now + period` — and blocks
until that absolute tick. -/
def vTaskDelayUntil (xPreviousWakeTime xTimeIncrement : Nat) : Nat :=
  xPreviousWakeTime + xTimeIncrement

/-- The producer's sequence of wake ticks: `xNextWakeTime` is initialized
from the tick count once, and each loop iteration passes it back through
`vTaskDelayUntil` with the fixed period.  The loop body never reads the
clock again, so the body's execution time does not enter the
recurrence. -/
def prodWakeTick (t0 period : Nat) : Nat → Nat
  | 0 => t0
  | k + 1 => vTaskDelayUntil (prodWakeTick t0 period k) period

/-- C3: successive producer wake ticks differ by exactly the period —
`t(k+1) - t(k) = period` — and the k-th wake tick is `t0 + k·period`,
independent of anything but `t0`, the period and `k` (in particular of
how long the loop body ran). -/
theorem c3_drift_free (t0 period k : Nat) :
    prodWakeTick t0 period (k + 1) - prodWakeTick t0 period k = period ∧
    prodWakeTick t0 period k = t0 + k * period := by
  constructor
  · simp [prodWakeTick, vTaskDelayUntil]
  · induction k with
    | zero => simp [prodWakeTick]
    | succ n ih =>
        simp only [prodWakeTick, vTaskDelayUntil, ih, Nat.succ_mul]
        omega

/-- Block-time argument of a queue call. -/
inductive QTimeout
  | ticks : Nat → QTimeout
  | infinite
  deriving DecidableEq, Repr

/-- The block time `prvQueueReceiveTask` passes to `xQueueReceive`:
`portMAX_DELAY`, an indefinite block (`INCLUDE_vTaskSuspend` is 1 per the
source comment). -/
def consumerRecvTimeout : QTimeout := .infinite

/-- The sentinel the consumer compares against (`ulExpectedValue = 100UL`
in the source; the producer sends `ulValueToSend = 100UL`). -/
def ulExpectedValue : Nat := 100

/-- Observable effect of one consumer loop iteration. -/
structure ConsEffect where
  msgs : List Msg
  greenToggled : Bool
  halted : Bool
  deriving DecidableEq, Repr

/-- One iteration of `prvQueueReceiveTask`'s loop body, after the receive
delivers `ulReceivedValue`; `greenPresent` records whether `led0_green`
is non-NULL. -/
def prvQueueReceiveBody (ulReceivedValue : Nat) (greenPresent : Bool) :
    ConsEffect :=
  if ulReceivedValue = ulExpectedValue then
    { msgs := [.blink], greenToggled := greenPresent, halted := false }
  else
    { msgs := [.unexpected], greenToggled := false, halted := false }

/-- The consumer's output over a sequence of received values. -/
def consumerRun (green : Bool) : List Nat → List Msg
  | [] => []
  | v :: vs => (prvQueueReceiveBody v green).msgs ++ consumerRun green vs

/-- C8: the consumer receives with an infinite timeout; a received value
equal to the sentinel yields the success message and toggles the
indicator; any other value yields exactly the failure message without
halting; over any value sequence the number of failure messages equals
the number of mismatched values, and appending a matching value still
produces the success message (later cycles are unaffected). -/
theorem c8_consumer_loop :
    consumerRecvTimeout = QTimeout.infinite ∧
    (∀ g : Bool, prvQueueReceiveBody ulExpectedValue g =
      { msgs := [Msg.blink], greenToggled := g, halted := false }) ∧
    (∀ (v : Nat) (g : Bool), v ≠ ulExpectedValue →
      prvQueueReceiveBody v g =
        { msgs := [Msg.unexpected], greenToggled := false, halted := false }) ∧
    (∀ (g : Bool) (vs : List Nat),
      (consumerRun g vs).count Msg.unexpected =
        vs.countP (fun v => decide (v ≠ ulExpectedValue))) ∧
    (∀ (g : Bool) (vs : List Nat),
      consumerRun g (vs ++ [ulExpectedValue]) =
        consumerRun g vs ++ [Msg.blink]) := by
  refine ⟨rfl, fun g => by simp [prvQueueReceiveBody],
    fun v g hv => by simp [prvQueueReceiveBody, hv], ?_, ?_⟩
  · intro g vs
    induction vs with
    | nil => rfl
    | cons v vs ih =>
        by_cases hv : v = ulExpectedValue <;>
          simp [consumerRun, prvQueueReceiveBody, hv, List.count_append,
            List.countP_cons, ih, List.count_cons]
  · intro g vs
    induction vs with
    | nil => simp [consumerRun, prvQueueReceiveBody]
    | cons v vs ih => simp [consumerRun, ih]

theorem c8_consumer_loop_witness :
    (7 : Nat) ≠ ulExpectedValue ∧
    prvQueueReceiveBody 7 true =
      { msgs := [Msg.unexpected], greenToggled := false, halted := false } :=
  ⟨by decide, c8_consumer_loop.2.2.1 7 true (by decide)⟩

/-- Observable terminal behaviour of a fatal path: whether
`taskDISABLE_INTERRUPTS` ran, which console messages were written,
whether the red failure LED was switched on (given that it is present),
and whether the path ends in an infinite loop. -/
structure FatalBehavior where
  intsDisabled : Bool
  msgs : List Msg
  redLedOn : Bool
  loopsForever : Bool
  deriving DecidableEq, Repr

/-- `ulSetTo1ToExitFunction` in `vAssertCalled`: initialized to 0 and
never written by the program, so the exit condition `== 1` never
holds. -/
def ulSetTo1ToExitFunction : Nat := 0

/-- `vAssertCalled`: disable interrupts, switch the red LED on when
present, then spin on `while(ulSetTo1ToExitFunction != 1)`. -/
def vAssertCalledB (redPresent : Bool) : FatalBehavior :=
  { intsDisabled := true, msgs := [], redLedOn := redPresent,
    loopsForever := ulSetTo1ToExitFunction != 1 }

/-- `vApplicationMallocFailedHook`: disable interrupts, red LED when
present, `for(;;)`.  No console message. -/
def vApplicationMallocFailedHookB (redPresent : Bool) : FatalBehavior :=
  { intsDisabled := true, msgs := [], redLedOn := redPresent,
    loopsForever := true }

/-- `vApplicationStackOverflowHook`: disable interrupts, write the stack
overflow message (and the task name), red LED when present, `for(;;)`. -/
def vApplicationStackOverflowHookB (redPresent : Bool) : FatalBehavior :=
  { intsDisabled := true, msgs := [.stackOverflow], redLedOn := redPresent,
    loopsForever := true }

/-- The failed-`metal_lock_init` path in `secondary_main`: write the
fixed diagnostic and `for(;;)` — no interrupt disabling, no LED (the LEDs
are not even configured yet). -/
def lockInitFailureB : FatalBehavior :=
  { intsDisabled := false, msgs := [.lockInitFail], redLedOn := false,
    loopsForever := true }

/-- The four fatal conditions of the program. -/
inductive FatalPath
  | lockInitFailure
  | mallocFailed
  | stackOverflow
  | assertFailed
  deriving DecidableEq, Repr

/-- Terminal behaviour of each fatal path, as implemented. -/
def fatalBehavior : FatalPath → Bool → FatalBehavior
  | .lockInitFailure, _ => lockInitFailureB
  | .mallocFailed, led => vApplicationMallocFailedHookB led
  | .stackOverflow, led => vApplicationStackOverflowHookB led
  | .assertFailed, led => vAssertCalledB led

/-- C7: while the consumer's priority strictly exceeds the producer's,
no reachable configuration has the producer in the failed-send assertion
state; and the assertion handler `vAssertCalled` itself disables
interrupts, turns the red LED on when present, and never exits its spin
loop. -/
theorem c7_assert_fatal_unreachable (cp pp : Nat) (c : SchedCfg)
    (hcp : pp < cp) (hr : SchedReach cp pp c) :
    c.prod ≠ ProdSt.fatal ∧
    (∀ led : Bool, (vAssertCalledB led).intsDisabled = true ∧
      (vAssertCalledB led).loopsForever = true ∧
      (vAssertCalledB led).redLedOn = led) :=
  ⟨(schedInv_reach hcp hr).2.2.2.2, fun led => ⟨rfl, rfl, rfl⟩⟩

theorem c7_assert_fatal_unreachable_witness :
    mainQUEUE_SEND_TASK_PRIORITY tskIDLE_PRIORITY <
      mainQUEUE_RECEIVE_TASK_PRIORITY tskIDLE_PRIORITY ∧
    (q2.prod ≠ ProdSt.fatal ∧
     (∀ led : Bool, (vAssertCalledB led).intsDisabled = true ∧
       (vAssertCalledB led).loopsForever = true ∧
       (vAssertCalledB led).redLedOn = led)) :=
  ⟨by decide,
   c7_assert_fatal_unreachable
     (mainQUEUE_RECEIVE_TASK_PRIORITY tskIDLE_PRIORITY)
     (mainQUEUE_SEND_TASK_PRIORITY tskIDLE_PRIORITY) q2 (by decide) q2_reach⟩

/-- C9 as stated is false: the lock-init-failure path does not disable
interrupts, and the malloc-failure path emits no diagnostic at all when
the red LED is absent (it writes no console message). -/
theorem c9_counterexample :
    (fatalBehavior FatalPath.lockInitFailure true).intsDisabled = false ∧
    (fatalBehavior FatalPath.mallocFailed false).msgs = [] ∧
    (fatalBehavior FatalPath.mallocFailed false).redLedOn = false := by
  decide

/-- C9 (amended): every fatal path ends in an infinite loop and never
continues past the fault; the malloc-failure, stack-overflow and
assertion paths disable interrupts first, while the lock-init-failure
path does not; a diagnostic side effect (console message and/or red LED)
is emitted exactly on the lock-init and stack-overflow paths (which write
console messages) and, for the other two, only when the red LED is
present. -/
theorem c9_fatal_paths_amended (p : FatalPath) (led : Bool) :
    (fatalBehavior p led).loopsForever = true ∧
    ((fatalBehavior p led).intsDisabled = true ↔
      p ≠ FatalPath.lockInitFailure) ∧
    (((fatalBehavior p led).msgs ≠ [] ∨ (fatalBehavior p led).redLedOn = true)
      ↔ (p = FatalPath.lockInitFailure ∨ p = FatalPath.stackOverflow ∨
          led = true)) := by
  cases p <;> cases led <;> decide

/-- Outcome of `main` as a function of what `xQueueCreate` returns. -/
structure MainOutcome where
  tasksCreated : List (String × Nat)
  schedStarted : Bool
  reachedFallthroughLoop : Bool
  deriving DecidableEq, Repr

/-- `main` after `prvSetupHardware`: create the queue; only if the handle
is non-NULL create the two tasks ("Rx" at receive priority, "TX" at send
priority) and start the scheduler (which does not return under normal
operation); otherwise fall through to the final `for(;;)` with no task
created and no scheduler started. -/
def mainModel (q : Option Unit) : MainOutcome :=
  match q with
  | some _ =>
      { tasksCreated :=
          [("Rx", mainQUEUE_RECEIVE_TASK_PRIORITY tskIDLE_PRIORITY),
           ("TX", mainQUEUE_SEND_TASK_PRIORITY tskIDLE_PRIORITY)]
        schedStarted := true
        reachedFallthroughLoop := false }
  | none =>
      { tasksCreated := [], schedStarted := false,
        reachedFallthroughLoop := true }

/-- C10: when queue creation fails, `main` creates no task, never starts
the scheduler, and falls through to the infinite loop; the scheduler is
started exactly when the queue handle is non-NULL, in which case exactly
the two tasks are created. -/
theorem c10_main_guard :
    (mainModel none).tasksCreated = [] ∧
    (mainModel none).schedStarted = false ∧
    (mainModel none).reachedFallthroughLoop = true ∧
    (∀ q : Option Unit, (mainModel q).schedStarted = q.isSome ∧
      (mainModel q).tasksCreated.length = if q.isSome then 2 else 0) := by
  refine ⟨rfl, rfl, rfl, ?_⟩
  intro q
  cases q <;> exact ⟨rfl, rfl⟩

end BlinkyMC
